import Mathlib

/-!
Shallow embedding of the candle-series reconciliation logic of
`src/app/page.tsx` (kimsuhan/cex-kline-sample).

Numbers: JavaScript numeric values reaching the candle mappers are modelled by
`JsNum` (a finite rational, one of the two infinities, or NaN) — the code only
ever branches on `Number.isNaN`, stores the value, or compares `openTime`s.
`Date.parse` returns either NaN or a finite integer count of milliseconds, so a
parsed `candleTime` is modelled as `Option Int` (`none` = NaN, covering both a
null/empty `candleTime` and an unparsable one).  `openTime` of a stored candle
is always a parse-checked integer, hence `Int`.
-/

/-- Result of a JavaScript numeric conversion (`parseFloat` / `Number`):
either a finite value, `Infinity`, `-Infinity`, or `NaN`. -/
inductive JsNum where
  | num (q : ℚ)
  | inf
  | neginf
  | nan
deriving DecidableEq

namespace JsNum

/-- Model of `Number.isNaN`. -/
def isNaN : JsNum → Bool
  | nan => true
  | _ => false

/-- A value is finite when it is an actual rational (not NaN, not ±Infinity). -/
def isFinite : JsNum → Bool
  | num _ => true
  | _ => false

end JsNum

/-- The `Candle` value type of `page.tsx` (`{openTime, open, high, low, close,
volume?}`).  Prices are parse-checked to be non-NaN but may be ±Infinity, so
they keep the `JsNum` type; `volume` is optional (`undefined` = `none`). -/
structure Candle where
  openTime : Int
  «open» : JsNum
  high : JsNum
  low : JsNum
  close : JsNum
  volume : Option JsNum
deriving DecidableEq

/-- Raw GraphQL kline row after JS primitive conversions, covering both
`KlineModel` (query rows) and `KlineSubModel` (subscription payloads):
`interval` is the row's reported interval; `candleTime` is the result of
`Date.parse` (`none` = NaN, also covering a null `candleTime`); the four price
fields are `parseFloat` results; `volume` is the raw `number | null` field
(`none` = null; JSON numbers are finite). -/
structure RawKline where
  interval : Int
  candleTime : Option Int
  «open» : JsNum
  high : JsNum
  low : JsNum
  close : JsNum
  volume : Option ℚ
deriving DecidableEq

/-- Raw Binance REST candle payload (`BinanceRestCandlePayload`) after JS
conversions: `openTime` arrives as a JSON number (hence never NaN), the other
five fields are strings put through `parseFloat`. -/
structure BinanceRestRaw where
  openTime : Int
  «open» : JsNum
  high : JsNum
  low : JsNum
  close : JsNum
  volume : JsNum
deriving DecidableEq

/-- `const MAX_CANDLES = 500` in `page.tsx`. -/
def MAX_CANDLES : Nat := 500

/-- `const TARGET_BAR_COUNT = 180` in `page.tsx`. -/
def TARGET_BAR_COUNT : ℚ := 180

/-- `const INTERVAL_OPTIONS = [1, 3, 5, 15, 30, 60, 120, 240]` in `page.tsx`
(as JS numbers, hence rationals here). -/
def INTERVAL_OPTIONS : List ℚ := [1, 3, 5, 15, 30, 60, 120, 240]

/-- Embedding of `mapSubscriptionKlineToCandle` (page.tsx:181-208).  Note the
volume branch: `typeof kline.volume === "number" ? kline.volume :
Number(kline.volume ?? 0)` turns a null volume into `0`. -/
def mapSubscriptionKlineToCandle (kline : RawKline) : Option Candle :=
  let volume : JsNum :=
    match kline.volume with
    | some v => JsNum.num v
    | none => JsNum.num 0
  match kline.candleTime with
  | none => none
  | some openTime =>
    if kline.«open».isNaN || kline.high.isNaN || kline.low.isNaN ||
        kline.close.isNaN then
      none
    else
      some { openTime := openTime, «open» := kline.«open», high := kline.high,
             low := kline.low, close := kline.close,
             volume := if volume.isNaN then none else some volume }

/-- Embedding of `mapModelToCandle` (page.tsx:210-239).  Its volume branch is
`typeof model.volume === "number" ? model.volume : Number(model.volume ??
Number.NaN)`, so a null volume becomes NaN and then `undefined`. -/
def mapModelToCandle (model : RawKline) : Option Candle :=
  let volume : JsNum :=
    match model.volume with
    | some v => JsNum.num v
    | none => JsNum.nan
  match model.candleTime with
  | none => none
  | some openTime =>
    if model.«open».isNaN || model.high.isNaN || model.low.isNaN ||
        model.close.isNaN then
      none
    else
      some { openTime := openTime, «open» := model.«open», high := model.high,
             low := model.low, close := model.close,
             volume := if volume.isNaN then none else some volume }

/-- Embedding of `mapBinanceRestCandle` (page.tsx:259-287).  The
`Number.isNaN(openTime)` check of the source is vacuous here because a JSON
number is never NaN. -/
def mapBinanceRestCandle (payload : BinanceRestRaw) : Option Candle :=
  if payload.«open».isNaN || payload.high.isNaN || payload.low.isNaN ||
      payload.close.isNaN then
    none
  else
    some { openTime := payload.openTime, «open» := payload.«open»,
           high := payload.high, low := payload.low, close := payload.close,
           volume := if payload.volume.isNaN then none else some payload.volume }

/-- Comparison key order used by every `.sort((a, b) => a.openTime - b.openTime)`
call of the source. -/
abbrev keyLe (a b : Candle) : Prop := a.openTime ≤ b.openTime

/-- Strict version of `keyLe`; a buffer pairwise in `keyLt` is exactly a buffer
sorted ascending by `openTime` with no duplicate `openTime`. -/
abbrev keyLt (a b : Candle) : Prop := a.openTime < b.openTime

instance : IsTotal Candle keyLe := ⟨fun a b => Int.le_total a.openTime b.openTime⟩

instance : IsTrans Candle keyLe := ⟨fun _ _ _ h h' => le_trans h h'⟩

instance : IsAntisymm Candle keyLt :=
  ⟨fun _ _ h h' => absurd (lt_trans h h') (lt_irrefl _)⟩

/-- Embedding of `.sort((a, b) => a.openTime - b.openTime)`: a stable sort by
ascending `openTime` (JavaScript `Array.prototype.sort` is stable, and so is
insertion sort). -/
def sortByOpenTime (l : List Candle) : List Candle :=
  List.insertionSort keyLe l

/-- Embedding of `Array.prototype.findIndex`, returning `none` instead of `-1`
(the source only compares the result against `-1` and indexes with it). -/
def jsFindIndex {α : Type} (p : α → Bool) : List α → Option Nat
  | [] => none
  | x :: xs => if p x then some 0 else (jsFindIndex p xs).map (· + 1)

/-- Embedding of `Array.prototype.slice(-n)` for `n > 0`: keep the last `n`
elements (the source only calls it with `MAX_CANDLES` and `MAX_CANDLES - 1`). -/
def jsSliceLast {α : Type} (n : Nat) (l : List α) : List α :=
  l.drop (l.length - n)

/-- Embedding of the `setCandles` / `setBinanceCandles` updater bodies
(page.tsx:1036-1057 and 939-956, which are textually the same algorithm):

* empty buffer → `[candle]`;
* an element with the same `openTime` exists → replace it in place;
* otherwise keep the last `MAX_CANDLES - 1` elements, append the candle and
  re-sort ascending by `openTime`. -/
def upsert (previous : List Candle) (candle : Candle) : List Candle :=
  match previous with
  | [] => [candle]
  | _ =>
    match jsFindIndex (fun item => item.openTime == candle.openTime) previous with
    | some i => previous.set i candle
    | none =>
      sortByOpenTime (jsSliceLast (MAX_CANDLES - 1) previous ++ [candle])

/-- Embedding of `mapModelsToCandles` (page.tsx:241-246): map each row through
`mapModelToCandle`, drop the failures, sort ascending by `openTime`. -/
def mapModelsToCandles (klines : List RawKline) : List Candle :=
  sortByOpenTime (klines.filterMap mapModelToCandle)

/-- Embedding of the value produced by `fetchCandles` (page.tsx:707-728):
`mapModelsToCandles(data.klines).slice(-MAX_CANDLES)`. -/
def fetchCandlesResult (klines : List RawKline) : List Candle :=
  jsSliceLast MAX_CANDLES (mapModelsToCandles klines)

/-- Embedding of `applyCandles` (page.tsx:703-705): `setCandles(nextCandles)`
replaces the whole buffer, ignoring the previous contents. -/
def applyCandles (_previous nextCandles : List Candle) : List Candle :=
  nextCandles

/-- Outcome of one subscription `next` message as far as the candle buffer is
concerned: the raw GraphQL result either reported errors or carried an optional
`klineUpdated` payload. -/
structure SubscriptionResult where
  hasErrors : Bool
  payload : Option RawKline
deriving DecidableEq

/-- Embedding of the subscription `next` handler's effect on the candle buffer
(page.tsx:1008-1062).  Returns the new buffer and whether an error was raised
(`setErrorMessage`).  A payload whose `interval` differs from the selection is
dropped at page.tsx:1027-1029; for a selected interval other than 1 the handler
only schedules a debounced refresh (`queueSilentRefresh`), leaving the buffer
unchanged. -/
def consumeSubscriptionResult (selectedInterval : Int)
    (result : SubscriptionResult) (previous : List Candle) :
    List Candle × Bool :=
  if result.hasErrors then (previous, true)
  else
    match result.payload with
    | none => (previous, false)
    | some payload =>
      if payload.interval ≠ selectedInterval then (previous, false)
      else
        match mapSubscriptionKlineToCandle payload with
        | none => (previous, false)
        | some candle =>
          if selectedInterval = 1 then (upsert previous candle, false)
          else (previous, false)

/-- Embedding of the `for (const option of INTERVAL_OPTIONS)` loop body of
`pickIntervalForRange` (page.tsx:319-327). -/
def pickIntervalLoop (rangeMinutes : ℚ) : List ℚ → ℚ
  | [] => INTERVAL_OPTIONS.getLastD 0
  | option :: rest =>
    if rangeMinutes / option ≤ TARGET_BAR_COUNT then option
    else pickIntervalLoop rangeMinutes rest

/-- Embedding of `pickIntervalForRange` (page.tsx:319-327). -/
def pickIntervalForRange (rangeMinutes : ℚ) : ℚ :=
  pickIntervalLoop rangeMinutes INTERVAL_OPTIONS

/-- The buffer invariant of spec §3: sorted ascending by `openTime` with no
duplicate `openTime`, i.e. strictly ascending keys. -/
def StrictByTime (l : List Candle) : Prop := l.Pairwise keyLt

instance (l : List Candle) : Decidable (StrictByTime l) :=
  inferInstanceAs (Decidable (l.Pairwise keyLt))

/-- Convenience constructor for concrete test candles. -/
def mkCandle (t : Int) (o h l c : ℚ) : Candle :=
  { openTime := t, «open» := JsNum.num o, high := JsNum.num h,
    low := JsNum.num l, close := JsNum.num c, volume := none }

/-- Concrete full buffer (length `MAX_CANDLES`) with open times `1..500`, used
to exercise the eviction path at capacity. -/
def fullBuffer : List Candle :=
  (List.range MAX_CANDLES).map (fun i : Nat => mkCandle ((i : Int) + 1) 1 1 1 1)

/-- Concrete GraphQL row with a null volume whose other fields parse. -/
def rowNullVolume : RawKline :=
  { interval := 1, candleTime := some 100, «open» := JsNum.num 1,
    high := JsNum.num 2, low := JsNum.num 1, close := JsNum.num 1,
    volume := none }

/-- Concrete GraphQL row whose `close` parses to NaN (non-numeric string). -/
def rowNanClose : RawKline :=
  { interval := 1, candleTime := some 100, «open» := JsNum.num 1,
    high := JsNum.num 2, low := JsNum.num 1, close := JsNum.nan,
    volume := none }

/-- Concrete GraphQL row whose `close` parses to `Infinity` (for example the
string "1e999"), a non-NaN, non-finite value. -/
def rowInfClose : RawKline :=
  { interval := 1, candleTime := some 100, «open» := JsNum.num 1,
    high := JsNum.num 2, low := JsNum.num 1, close := JsNum.inf,
    volume := none }

/-- Concrete Binance REST payload whose volume string does not parse. -/
def binanceRowNanVolume : BinanceRestRaw :=
  { openTime := 100, «open» := JsNum.num 1, high := JsNum.num 2,
    low := JsNum.num 1, close := JsNum.num 1, volume := JsNum.nan }

/-- Concrete subscription payload reporting interval 5. -/
def payloadInterval5 : RawKline :=
  { interval := 5, candleTime := some 100, «open» := JsNum.num 1,
    high := JsNum.num 1, low := JsNum.num 1, close := JsNum.num 1,
    volume := none }

section FindIndexLemmas

variable {α : Type}

theorem jsFindIndex_eq_none_iff (p : α → Bool) (l : List α) :
    jsFindIndex p l = none ↔ ∀ a ∈ l, p a = false := by
  induction l with
  | nil => simp [jsFindIndex]
  | cons x xs ih => by_cases h : p x <;> simp [jsFindIndex, h, ih]

theorem jsFindIndex_getElem {p : α → Bool} :
    ∀ {l : List α} {i : Nat}, jsFindIndex p l = some i →
      ∃ a, l[i]? = some a ∧ p a = true := by
  intro l
  induction l with
  | nil => intro i h; simp [jsFindIndex] at h
  | cons x xs ih =>
    intro i h
    cases hx : p x with
    | true =>
      rw [jsFindIndex, if_pos hx] at h
      obtain rfl : (0 : Nat) = i := Option.some.inj h
      exact ⟨x, by simp, hx⟩
    | false =>
      rw [jsFindIndex, if_neg (by simp [hx])] at h
      cases hfind : jsFindIndex p xs with
      | none => rw [hfind] at h; simp at h
      | some j =>
        rw [hfind] at h
        obtain rfl : j + 1 = i := by simpa using h
        obtain ⟨a, ha, hpa⟩ := ih hfind
        exact ⟨a, by simpa using ha, hpa⟩

theorem jsFindIndex_eq_some_of {p : α → Bool} :
    ∀ {l : List α} {i : Nat} {a : α}, l[i]? = some a → p a = true →
      (∀ j b, j < i → l[j]? = some b → p b = false) →
      jsFindIndex p l = some i := by
  intro l
  induction l with
  | nil => intro i a ha _ _; simp at ha
  | cons x xs ih =>
    intro i a ha hpa hfirst
    cases i with
    | zero =>
      obtain rfl : x = a := by simpa using ha
      simp [jsFindIndex, hpa]
    | succ i =>
      have hx : p x = false := hfirst 0 x (Nat.succ_pos i) (by simp)
      have := ih (by simpa using ha) hpa
        (fun j b hj hb => hfirst (j + 1) b (by omega) (by simpa using hb))
      simp [jsFindIndex, hx, this]

theorem jsFindIndex_set_self {p : α → Bool} {c : α} (hc : p c = true) :
    ∀ {l : List α} {i : Nat}, jsFindIndex p l = some i →
      jsFindIndex p (l.set i c) = some i := by
  intro l
  induction l with
  | nil => intro i h; simp [jsFindIndex] at h
  | cons x xs ih =>
    intro i h
    cases hx : p x with
    | true =>
      rw [jsFindIndex, if_pos hx] at h
      obtain rfl : (0 : Nat) = i := Option.some.inj h
      simp [jsFindIndex, hc]
    | false =>
      rw [jsFindIndex, if_neg (by simp [hx])] at h
      cases hfind : jsFindIndex p xs with
      | none => rw [hfind] at h; simp at h
      | some j =>
        rw [hfind] at h
        obtain rfl : j + 1 = i := by simpa using h
        simp [List.set, jsFindIndex, hx, ih hfind]

theorem set_getElem?_self :
    ∀ {l : List α} {i : Nat} {a : α}, l[i]? = some a → l.set i a = l := by
  intro l
  induction l with
  | nil => intro i a h; simp at h
  | cons x xs ih =>
    intro i a h
    cases i with
    | zero =>
      obtain rfl : x = a := by simpa using h
      simp
    | succ i => simp [List.set, ih (by simpa using h)]

end FindIndexLemmas

section KeyLemmas

/-- The buffer invariant is a statement about the `openTime` keys only. -/
theorem strictByTime_iff_keys (l : List Candle) :
    StrictByTime l ↔ (l.map Candle.openTime).Pairwise (· < ·) := by
  unfold StrictByTime
  rw [List.pairwise_map]

theorem keys_nodup_of_strict {l : List Candle} (h : StrictByTime l) :
    (l.map Candle.openTime).Nodup := by
  refine List.Pairwise.imp ?_ ((strictByTime_iff_keys l).mp h)
  exact fun h' => ne_of_lt h'

theorem strict_of_sorted_keys_nodup {l : List Candle}
    (hs : List.Sorted keyLe l) (hn : (l.map Candle.openTime).Nodup) :
    StrictByTime l := by
  have hne : l.Pairwise (fun a b : Candle => a.openTime ≠ b.openTime) :=
    (List.pairwise_map).mp hn
  exact (hs.and hne).imp (fun h => lt_of_le_of_ne h.1 h.2)

theorem sortByOpenTime_perm (l : List Candle) : List.Perm (sortByOpenTime l) l :=
  List.perm_insertionSort keyLe l

theorem sortByOpenTime_sorted (l : List Candle) :
    List.Sorted keyLe (sortByOpenTime l) :=
  List.sorted_insertionSort keyLe l

theorem sortByOpenTime_strict {l : List Candle}
    (h : (l.map Candle.openTime).Nodup) : StrictByTime (sortByOpenTime l) := by
  refine strict_of_sorted_keys_nodup (sortByOpenTime_sorted l) ?_
  exact (((sortByOpenTime_perm l).map Candle.openTime).nodup_iff).mpr h

theorem jsSliceLast_sublist {α : Type} (n : Nat) (l : List α) :
    List.Sublist (jsSliceLast n l) l :=
  List.drop_sublist _ _

theorem keys_append_fresh_nodup {l : List Candle} {c : Candle}
    (h : StrictByTime l) (hfresh : ∀ x ∈ l, x.openTime ≠ c.openTime) (n : Nat) :
    ((jsSliceLast n l ++ [c]).map Candle.openTime).Nodup := by
  rw [List.map_append]
  refine List.Nodup.append ?_ (by simp) ?_
  · exact List.Pairwise.sublist ((jsSliceLast_sublist n l).map Candle.openTime)
      (keys_nodup_of_strict h)
  · intro t ht htc
    simp only [List.mem_map] at ht
    obtain ⟨x, hx, rfl⟩ := ht
    have hxl : x ∈ l := (jsSliceLast_sublist n l).subset hx
    have := hfresh x hxl
    simp only [List.map_cons, List.map_nil, List.mem_singleton] at htc
    exact this htc

end KeyLemmas

section UpsertLemmas

theorem upsert_replace {prev : List Candle} {c : Candle} {i : Nat}
    (hne : prev ≠ [])
    (hidx : jsFindIndex (fun item => item.openTime == c.openTime) prev = some i) :
    upsert prev c = prev.set i c := by
  cases prev with
  | nil => exact absurd rfl hne
  | cons x xs =>
    rw [upsert, hidx]
    simp

theorem upsert_append_branch {prev : List Candle} {c : Candle}
    (hne : prev ≠ [])
    (hidx : jsFindIndex (fun item => item.openTime == c.openTime) prev = none) :
    upsert prev c = sortByOpenTime (jsSliceLast (MAX_CANDLES - 1) prev ++ [c]) := by
  cases prev with
  | nil => exact absurd rfl hne
  | cons x xs =>
    rw [upsert, hidx]
    simp

theorem fresh_of_findIndex_none {prev : List Candle} {c : Candle}
    (h : jsFindIndex (fun item => item.openTime == c.openTime) prev = none) :
    ∀ x ∈ prev, x.openTime ≠ c.openTime := by
  intro x hx
  have := (jsFindIndex_eq_none_iff _ _).mp h x hx
  simpa using this

theorem strict_set_key {prev : List Candle} {c : Candle} {i : Nat} {a : Candle}
    (h : StrictByTime prev) (ha : prev[i]? = some a)
    (hk : a.openTime = c.openTime) : StrictByTime (prev.set i c) := by
  rw [strictByTime_iff_keys] at h ⊢
  rw [List.map_set]
  have hkey : (prev.map Candle.openTime)[i]? = some c.openTime := by
    rw [List.getElem?_map, ha]
    simp [hk]
  rw [set_getElem?_self hkey]
  exact h

/-- One upsert call preserves the buffer invariant (spec §3 / §4.1). -/
theorem upsert_strict {prev : List Candle} (c : Candle) (h : StrictByTime prev) :
    StrictByTime (upsert prev c) := by
  cases prev with
  | nil => exact List.pairwise_singleton keyLt c
  | cons x xs =>
    cases hidx : jsFindIndex (fun item => item.openTime == c.openTime) (x :: xs) with
    | some i =>
      rw [upsert_replace (by simp) hidx]
      obtain ⟨a, ha, hpa⟩ := jsFindIndex_getElem hidx
      exact strict_set_key h ha (by simpa using hpa)
    | none =>
      rw [upsert_append_branch (by simp) hidx]
      exact sortByOpenTime_strict
        (keys_append_fresh_nodup h (fresh_of_findIndex_none hidx) _)

theorem foldl_upsert_strict {init : List Candle} (h : StrictByTime init)
    (cs : List Candle) : StrictByTime (cs.foldl upsert init) := by
  induction cs generalizing init with
  | nil => exact h
  | cons c cs ih => exact ih (upsert_strict c h)

end UpsertLemmas

section InsertPosition

theorem keys_plain_append_fresh_nodup {l : List Candle} {c : Candle}
    (h : StrictByTime l) (hfresh : ∀ x ∈ l, x.openTime ≠ c.openTime) :
    ((l ++ [c]).map Candle.openTime).Nodup := by
  rw [List.map_append]
  refine List.Nodup.append (keys_nodup_of_strict h) (by simp) ?_
  intro t ht htc
  simp only [List.mem_map] at ht
  obtain ⟨x, hx, rfl⟩ := ht
  simp only [List.map_cons, List.map_nil, List.mem_singleton] at htc
  exact hfresh x hx htc

theorem dropWhile_keys_gt {t : Int} :
    ∀ {l : List Candle}, StrictByTime l → (∀ x ∈ l, x.openTime ≠ t) →
      ∀ x ∈ l.dropWhile (fun a => decide (a.openTime < t)), t < x.openTime := by
  intro l
  induction l with
  | nil => intro _ _ x hx; simp at hx
  | cons b bs ih =>
    intro h hfresh x hx
    rw [List.dropWhile_cons] at hx
    by_cases hb : b.openTime < t
    · rw [if_pos (by simpa using hb)] at hx
      exact ih h.of_cons (fun y hy => hfresh y (List.mem_cons_of_mem b hy)) x hx
    · rw [if_neg (by simpa using hb)] at hx
      have hbt : t < b.openTime :=
        lt_of_le_of_ne (not_lt.mp hb) (Ne.symm (hfresh b (List.mem_cons_self b bs)))
      rcases List.mem_cons.mp hx with rfl | hx'
      · exact hbt
      · exact lt_trans hbt ((List.pairwise_cons.mp h).1 x hx')

/-- Sorting a strictly increasing buffer with one fresh candle appended puts
that candle exactly at its sorted position and leaves everything else in
place. -/
theorem sort_append_fresh_eq_insert {prev : List Candle} {c : Candle}
    (h : StrictByTime prev) (hfresh : ∀ x ∈ prev, x.openTime ≠ c.openTime) :
    sortByOpenTime (prev ++ [c]) =
      prev.takeWhile (fun a => decide (a.openTime < c.openTime)) ++
        c :: prev.dropWhile (fun a => decide (a.openTime < c.openTime)) := by
  have hsplit : prev.takeWhile (fun a => decide (a.openTime < c.openTime)) ++
      prev.dropWhile (fun a => decide (a.openTime < c.openTime)) = prev :=
    List.takeWhile_append_dropWhile _ _
  have htake_mem : ∀ x ∈ prev.takeWhile (fun a => decide (a.openTime < c.openTime)),
      x.openTime < c.openTime := by
    intro x hx
    simpa using List.mem_takeWhile_imp hx
  have hdrop_mem := dropWhile_keys_gt h hfresh
  have hRHS : StrictByTime
      (prev.takeWhile (fun a => decide (a.openTime < c.openTime)) ++
        c :: prev.dropWhile (fun a => decide (a.openTime < c.openTime))) := by
    have hprev : StrictByTime
        (prev.takeWhile (fun a => decide (a.openTime < c.openTime)) ++
          prev.dropWhile (fun a => decide (a.openTime < c.openTime))) := by
      rwa [hsplit]
    rw [StrictByTime, List.pairwise_append] at hprev ⊢
    obtain ⟨h1, h2, h3⟩ := hprev
    refine ⟨h1, List.pairwise_cons.mpr ⟨fun y hy => hdrop_mem y hy, h2⟩, ?_⟩
    intro a ha b hb
    rcases List.mem_cons.mp hb with rfl | hb'
    · exact htake_mem a ha
    · exact h3 a ha b hb'
  have hLHS : StrictByTime (sortByOpenTime (prev ++ [c])) :=
    sortByOpenTime_strict (keys_plain_append_fresh_nodup h hfresh)
  have hperm : List.Perm (sortByOpenTime (prev ++ [c]))
      (prev.takeWhile (fun a => decide (a.openTime < c.openTime)) ++
        c :: prev.dropWhile (fun a => decide (a.openTime < c.openTime))) := by
    refine (sortByOpenTime_perm _).trans ?_
    refine (List.perm_append_singleton c prev).trans ?_
    refine List.Perm.trans ?_ List.perm_middle.symm
    rw [hsplit]
  exact List.eq_of_perm_of_sorted hperm hLHS hRHS

theorem jsSliceLast_of_le {α : Type} {n : Nat} {l : List α}
    (hn : l.length ≤ n) : jsSliceLast n l = l := by
  simp [jsSliceLast, Nat.sub_eq_zero_of_le hn]

end InsertPosition


/-!
Claim theorems.
-/

/-- C1: for every sequence of `upsert` calls applied to a buffer that starts
sorted ascending by `openTime` and free of duplicate `openTime`s, the resulting
buffer is sorted ascending by `openTime` and contains no two candles with the
same `openTime`. -/
theorem c1_upsert_sequence_invariant (init : List Candle)
    (hinit : StrictByTime init) (cs : List Candle) :
    List.Sorted keyLe (cs.foldl upsert init) ∧
    ((cs.foldl upsert init).map Candle.openTime).Nodup := by
  have h := foldl_upsert_strict hinit cs
  exact ⟨h.imp (fun h' => le_of_lt h'), keys_nodup_of_strict h⟩

/-- Witness for C1 at a concrete reseeded buffer and upsert sequence
(a replacement, a duplicate upsert, and an out-of-order insert). -/
theorem c1_upsert_sequence_invariant_witness :
    StrictByTime [mkCandle 100 1 2 1 1, mkCandle 200 1 2 1 1] ∧
    (List.Sorted keyLe
        ([mkCandle 150 1 1 1 1, mkCandle 150 2 2 2 2, mkCandle 50 1 1 1 1].foldl
          upsert [mkCandle 100 1 2 1 1, mkCandle 200 1 2 1 1]) ∧
      (([mkCandle 150 1 1 1 1, mkCandle 150 2 2 2 2, mkCandle 50 1 1 1 1].foldl
          upsert [mkCandle 100 1 2 1 1, mkCandle 200 1 2 1 1]).map
          Candle.openTime).Nodup) :=
  ⟨by decide, c1_upsert_sequence_invariant _ (by decide) _⟩

/-- C3: `upsert` is idempotent — applying it twice with an identical candle
yields the same buffer as applying it once, for every starting buffer. -/
theorem c3_upsert_idempotent (prev : List Candle) (c : Candle) :
    upsert (upsert prev c) c = upsert prev c := by
  cases prev with
  | nil =>
    have h0 : jsFindIndex (fun item : Candle => item.openTime == c.openTime) [c] =
        some 0 := by
      simp [jsFindIndex]
    rw [show upsert [] c = [c] from rfl, upsert_replace (by simp) h0]
    rfl
  | cons x xs =>
    cases hidx : jsFindIndex (fun item => item.openTime == c.openTime) (x :: xs) with
    | some i =>
      rw [upsert_replace (by simp) hidx]
      have hset : jsFindIndex (fun item => item.openTime == c.openTime)
          ((x :: xs).set i c) = some i :=
        jsFindIndex_set_self (by simp) hidx
      have hne : (x :: xs).set i c ≠ [] := by
        cases i <;> simp [List.set]
      rw [upsert_replace hne hset, List.set_set]
    | none =>
      rw [upsert_append_branch (by simp) hidx]
      have hcr : c ∈ sortByOpenTime (jsSliceLast (MAX_CANDLES - 1) (x :: xs) ++ [c]) :=
        (sortByOpenTime_perm _).mem_iff.mpr (by simp)
      have hrne : sortByOpenTime (jsSliceLast (MAX_CANDLES - 1) (x :: xs) ++ [c]) ≠ [] :=
        List.ne_nil_of_mem hcr
      obtain ⟨i, hi⟩ : ∃ i, jsFindIndex (fun item => item.openTime == c.openTime)
          (sortByOpenTime (jsSliceLast (MAX_CANDLES - 1) (x :: xs) ++ [c])) = some i := by
        cases hfind : jsFindIndex (fun item => item.openTime == c.openTime)
            (sortByOpenTime (jsSliceLast (MAX_CANDLES - 1) (x :: xs) ++ [c])) with
        | some i => exact ⟨i, rfl⟩
        | none =>
          have := (jsFindIndex_eq_none_iff _ _).mp hfind c hcr
          simp at this
      obtain ⟨a, ha, hpa⟩ := jsFindIndex_getElem hi
      have hac : a = c := by
        have hmem2 : a ∈ jsSliceLast (MAX_CANDLES - 1) (x :: xs) ++ [c] :=
          (sortByOpenTime_perm _).subset (List.getElem?_mem ha)
        rcases List.mem_append.mp hmem2 with h1 | h2
        · have hfresh := fresh_of_findIndex_none hidx a
            ((jsSliceLast_sublist _ _).subset h1)
          exact absurd (by simpa using hpa) hfresh
        · simpa using h2
      rw [upsert_replace hrne hi]
      rw [hac] at ha
      exact set_getElem?_self ha

/-- C5: an upsert whose `openTime` matches the candle stored at position `i`
(and no other position) replaces that candle in place: the buffer becomes
`prev.set i c`, the length is unchanged, position `i` now holds the new candle,
and every other position is untouched. -/
theorem c5_upsert_replaces_in_place (prev : List Candle) (c a : Candle) (i : Nat)
    (ha : prev[i]? = some a) (hk : a.openTime = c.openTime)
    (huniq : ∀ j b, j ≠ i → prev[j]? = some b → b.openTime ≠ c.openTime) :
    upsert prev c = prev.set i c ∧
    (upsert prev c).length = prev.length ∧
    (upsert prev c)[i]? = some c ∧
    ∀ j, j ≠ i → (upsert prev c)[j]? = prev[j]? := by
  have hne : prev ≠ [] := by
    intro h
    subst h
    simp at ha
  have hi : i < prev.length := by
    obtain ⟨h, -⟩ := List.getElem?_eq_some_iff.mp ha
    exact h
  have hidx : jsFindIndex (fun item => item.openTime == c.openTime) prev = some i :=
    jsFindIndex_eq_some_of ha (by simpa using hk)
      (fun j b hj hb => by simpa using huniq j b (by omega) hb)
  have heq := upsert_replace hne hidx
  refine ⟨heq, by rw [heq]; simp, ?_, ?_⟩
  · rw [heq]
    exact List.getElem?_set_self (by simpa using hi)
  · intro j hj
    rw [heq]
    exact List.getElem?_set_ne (fun h => hj h.symm)

/-- Witness for C5: the spec scenario — upserting a changed candle at an
`openTime` already present (200) keeps the length and positions. -/
theorem c5_upsert_replaces_in_place_witness :
    ([mkCandle 100 1 2 1 1, mkCandle 200 1 2 1 1][1]? = some (mkCandle 200 1 2 1 1) ∧
      (mkCandle 200 1 2 1 1).openTime = (mkCandle 200 1 2 1 3).openTime ∧
      ∀ j b, j ≠ 1 → [mkCandle 100 1 2 1 1, mkCandle 200 1 2 1 1][j]? = some b →
        b.openTime ≠ (mkCandle 200 1 2 1 3).openTime) ∧
    (upsert [mkCandle 100 1 2 1 1, mkCandle 200 1 2 1 1] (mkCandle 200 1 2 1 3) =
        [mkCandle 100 1 2 1 1, mkCandle 200 1 2 1 1].set 1 (mkCandle 200 1 2 1 3) ∧
      (upsert [mkCandle 100 1 2 1 1, mkCandle 200 1 2 1 1] (mkCandle 200 1 2 1 3)).length =
        [mkCandle 100 1 2 1 1, mkCandle 200 1 2 1 1].length ∧
      (upsert [mkCandle 100 1 2 1 1, mkCandle 200 1 2 1 1] (mkCandle 200 1 2 1 3))[1]? =
        some (mkCandle 200 1 2 1 3) ∧
      ∀ j, j ≠ 1 →
        (upsert [mkCandle 100 1 2 1 1, mkCandle 200 1 2 1 1] (mkCandle 200 1 2 1 3))[j]? =
          [mkCandle 100 1 2 1 1, mkCandle 200 1 2 1 1][j]?) := by
  have huniq : ∀ j b, j ≠ 1 →
      [mkCandle 100 1 2 1 1, mkCandle 200 1 2 1 1][j]? = some b →
      b.openTime ≠ (mkCandle 200 1 2 1 3).openTime := by
    intro j b hj hb
    cases j with
    | zero =>
      obtain rfl : mkCandle 100 1 2 1 1 = b := by simpa using hb
      decide
    | succ j =>
      cases j with
      | zero => exact absurd rfl hj
      | succ j => simp at hb
  exact ⟨⟨by decide, by decide, huniq⟩,
    c5_upsert_replaces_in_place _ (mkCandle 200 1 2 1 3) (mkCandle 200 1 2 1 1) 1
      (by decide) (by decide) huniq⟩

/-- C4: on a buffer below capacity, upserting a candle whose `openTime` is not
stored keeps every previous candle unchanged and inserts the new candle at its
sorted position by `openTime` (also when the candle is older than stored ones);
in particular the spec scenario — buffer at open times 100 and 200, upsert at
150 — yields the order `[100, 150, 200]`. -/
theorem c4_upsert_inserts_at_sorted_position (prev : List Candle) (c : Candle)
    (h : StrictByTime prev) (hlen : prev.length < MAX_CANDLES)
    (hfresh : ∀ x ∈ prev, x.openTime ≠ c.openTime) :
    (∃ l₁ l₂, prev = l₁ ++ l₂ ∧ upsert prev c = l₁ ++ c :: l₂ ∧
      (∀ x ∈ l₁, x.openTime < c.openTime) ∧
      (∀ x ∈ l₂, c.openTime < x.openTime)) ∧
    upsert [mkCandle 100 1 2 (1/2) (3/2), mkCandle 200 2 2 2 2]
        (mkCandle 150 1 1 1 1) =
      [mkCandle 100 1 2 (1/2) (3/2), mkCandle 150 1 1 1 1,
        mkCandle 200 2 2 2 2] := by
  refine ⟨?_, rfl⟩
  cases hp : prev with
  | nil =>
    exact ⟨[], [], rfl, rfl, by simp, by simp⟩
  | cons x xs =>
    subst hp
    have hidx : jsFindIndex (fun item => item.openTime == c.openTime) (x :: xs) =
        none := by
      rw [jsFindIndex_eq_none_iff]
      intro a ha
      simpa using hfresh a ha
    have hslice : jsSliceLast (MAX_CANDLES - 1) (x :: xs) = x :: xs :=
      jsSliceLast_of_le (by omega)
    rw [upsert_append_branch (by simp) hidx, hslice,
      sort_append_fresh_eq_insert h hfresh]
    refine ⟨(x :: xs).takeWhile (fun a => decide (a.openTime < c.openTime)),
      (x :: xs).dropWhile (fun a => decide (a.openTime < c.openTime)),
      (List.takeWhile_append_dropWhile _ _).symm, rfl, ?_, ?_⟩
    · intro y hy
      simpa using List.mem_takeWhile_imp hy
    · exact dropWhile_keys_gt h hfresh

/-- Witness for C4 at the spec scenario buffer (open times 100 and 200, upsert
at 150). -/
theorem c4_upsert_inserts_at_sorted_position_witness :
    (StrictByTime [mkCandle 100 1 2 1 1, mkCandle 200 1 2 1 1] ∧
      [mkCandle 100 1 2 1 1, mkCandle 200 1 2 1 1].length < MAX_CANDLES ∧
      ∀ x ∈ [mkCandle 100 1 2 1 1, mkCandle 200 1 2 1 1],
        x.openTime ≠ (mkCandle 150 1 1 1 1).openTime) ∧
    ∃ l₁ l₂, [mkCandle 100 1 2 1 1, mkCandle 200 1 2 1 1] = l₁ ++ l₂ ∧
      upsert [mkCandle 100 1 2 1 1, mkCandle 200 1 2 1 1] (mkCandle 150 1 1 1 1) =
        l₁ ++ mkCandle 150 1 1 1 1 :: l₂ ∧
      (∀ x ∈ l₁, x.openTime < (mkCandle 150 1 1 1 1).openTime) ∧
      (∀ x ∈ l₂, (mkCandle 150 1 1 1 1).openTime < x.openTime) :=
  ⟨⟨by decide, by decide, by decide⟩,
    (c4_upsert_inserts_at_sorted_position
      [mkCandle 100 1 2 1 1, mkCandle 200 1 2 1 1] (mkCandle 150 1 1 1 1)
      (by decide) (by decide) (by decide)).1⟩

theorem upsert_length_le (p : List Candle) (d : Candle)
    (hp : p.length ≤ MAX_CANDLES) : (upsert p d).length ≤ MAX_CANDLES := by
  cases p with
  | nil => simp [upsert, MAX_CANDLES]
  | cons x xs =>
    cases hidx : jsFindIndex (fun item => item.openTime == d.openTime) (x :: xs) with
    | some i =>
      rw [upsert_replace (by simp) hidx]
      simpa using hp
    | none =>
      rw [upsert_append_branch (by simp) hidx]
      have hlen : (sortByOpenTime (jsSliceLast (MAX_CANDLES - 1) (x :: xs) ++ [d])).length =
          (jsSliceLast (MAX_CANDLES - 1) (x :: xs)).length + 1 := by
        rw [(sortByOpenTime_perm _).length_eq, List.length_append]
        simp
      have hslice : (jsSliceLast (MAX_CANDLES - 1) (x :: xs)).length ≤ MAX_CANDLES - 1 := by
        rw [jsSliceLast, List.length_drop]
        omega
      rw [hlen]
      simp only [MAX_CANDLES] at hslice ⊢
      omega

theorem fullBuffer_strict : StrictByTime fullBuffer := by
  rw [strictByTime_iff_keys, fullBuffer, List.map_map]
  refine List.Pairwise.map _ ?_ (List.pairwise_lt_range MAX_CANDLES)
  intro i j hij
  simp only [Function.comp, mkCandle]
  omega

theorem fullBuffer_length : fullBuffer.length = MAX_CANDLES := by
  rw [fullBuffer, List.length_map, List.length_range]

theorem fullBuffer_keys_le {x : Candle} (hx : x ∈ fullBuffer) :
    1 ≤ x.openTime ∧ x.openTime ≤ (MAX_CANDLES : Int) := by
  rw [fullBuffer] at hx
  obtain ⟨i, hi, rfl⟩ := List.mem_map.mp hx
  rw [List.mem_range] at hi
  simp only [mkCandle]
  omega

/-- C2 (amended): at capacity with a fresh `openTime`, the oldest stored candle
(the head) is evicted and the new candle inserted, so the result is a sorted
duplicate-free permutation of `prev.tail ++ [c]` of length `MAX_CANDLES`; in
general the buffer length never exceeds `MAX_CANDLES` once it is within the
bound. -/
theorem c2_eviction_at_capacity (prev : List Candle) (c : Candle)
    (h : StrictByTime prev) (hlen : prev.length = MAX_CANDLES)
    (hfresh : ∀ x ∈ prev, x.openTime ≠ c.openTime) :
    List.Perm (upsert prev c) (prev.tail ++ [c]) ∧
    StrictByTime (upsert prev c) ∧
    (upsert prev c).length = MAX_CANDLES ∧
    ∀ (p : List Candle) (d : Candle), p.length ≤ MAX_CANDLES →
      (upsert p d).length ≤ MAX_CANDLES := by
  have hne : prev ≠ [] := by
    intro hnil
    rw [hnil] at hlen
    simp [MAX_CANDLES] at hlen
  have hidx : jsFindIndex (fun item => item.openTime == c.openTime) prev = none := by
    rw [jsFindIndex_eq_none_iff]
    intro a ha
    simpa using hfresh a ha
  have hslice : jsSliceLast (MAX_CANDLES - 1) prev = prev.tail := by
    rw [jsSliceLast, hlen, show MAX_CANDLES - (MAX_CANDLES - 1) = 1 by rfl,
      List.drop_one]
  have heq := upsert_append_branch hne hidx
  rw [hslice] at heq
  have hperm : List.Perm (upsert prev c) (prev.tail ++ [c]) := by
    rw [heq]
    exact sortByOpenTime_perm _
  refine ⟨hperm, upsert_strict c h, ?_, upsert_length_le⟩
  rw [hperm.length_eq, List.length_append, List.length_tail, hlen]
  simp [MAX_CANDLES]

/-- Witness for C2 (amended) at the full buffer with open times `1..500` and a
new candle at open time 501. -/
theorem c2_eviction_at_capacity_witness :
    (StrictByTime fullBuffer ∧ fullBuffer.length = MAX_CANDLES ∧
      ∀ x ∈ fullBuffer, x.openTime ≠ (mkCandle 501 1 1 1 1).openTime) ∧
    (List.Perm (upsert fullBuffer (mkCandle 501 1 1 1 1))
        (fullBuffer.tail ++ [mkCandle 501 1 1 1 1]) ∧
      StrictByTime (upsert fullBuffer (mkCandle 501 1 1 1 1)) ∧
      (upsert fullBuffer (mkCandle 501 1 1 1 1)).length = MAX_CANDLES ∧
      ∀ (p : List Candle) (d : Candle), p.length ≤ MAX_CANDLES →
        (upsert p d).length ≤ MAX_CANDLES) := by
  have hfresh : ∀ x ∈ fullBuffer, x.openTime ≠ (mkCandle 501 1 1 1 1).openTime := by
    intro x hx
    have := (fullBuffer_keys_le hx).2
    simp only [mkCandle, MAX_CANDLES] at this ⊢
    omega
  exact ⟨⟨fullBuffer_strict, fullBuffer_length, hfresh⟩,
    c2_eviction_at_capacity fullBuffer (mkCandle 501 1 1 1 1)
      fullBuffer_strict fullBuffer_length hfresh⟩

set_option maxRecDepth 100000 in
/-- C2 counterexample: with the buffer full at open times `1..500`, upserting a
fresh candle at open time `0` (older than everything stored) keeps the new
candle and evicts the stored candle at open time `1`.  The `MAX_CANDLES`
candles with the greatest `openTime` among the prior contents plus the new
candle are exactly the prior contents, so the claim as stated would require
the new candle to be the one dropped — the code does the opposite. -/
theorem c2_counterexample_oldest_insert :
    fullBuffer.length = MAX_CANDLES ∧
    (∀ x ∈ fullBuffer, x.openTime ≠ (mkCandle 0 1 1 1 1).openTime) ∧
    mkCandle 1 1 1 1 1 ∈ fullBuffer ∧
    (mkCandle 0 1 1 1 1).openTime < (mkCandle 1 1 1 1 1).openTime ∧
    mkCandle 0 1 1 1 1 ∈ upsert fullBuffer (mkCandle 0 1 1 1 1) ∧
    mkCandle 1 1 1 1 1 ∉ upsert fullBuffer (mkCandle 0 1 1 1 1) := by
  refine ⟨fullBuffer_length, by decide, by decide, by decide, by decide, by decide⟩

set_option maxRecDepth 4000 in
/-- C6: a snapshot load replaces the whole buffer (independently of the prior
contents) with the parsed rows sorted ascending by `openTime` and truncated to
the most recent `MAX_CANDLES` entries, dropping oldest-first; an empty row list
yields an empty buffer. -/
theorem c6_reseed_replaces_sorted_truncated (rows : List RawKline)
    (prior prior' : List Candle) :
    applyCandles prior (fetchCandlesResult rows) = fetchCandlesResult rows ∧
    applyCandles prior (fetchCandlesResult rows) =
      applyCandles prior' (fetchCandlesResult rows) ∧
    fetchCandlesResult [] = [] ∧
    List.Sorted keyLe (fetchCandlesResult rows) ∧
    (fetchCandlesResult rows).length =
      min (rows.filterMap mapModelToCandle).length MAX_CANDLES ∧
    ∃ dropped, dropped ++ fetchCandlesResult rows = mapModelsToCandles rows ∧
      ∀ x ∈ dropped, ∀ y ∈ fetchCandlesResult rows, x.openTime ≤ y.openTime := by
  refine ⟨rfl, rfl, rfl, ?_, ?_, ?_⟩
  · show List.Sorted keyLe (jsSliceLast MAX_CANDLES (mapModelsToCandles rows))
    exact List.Pairwise.sublist
      (jsSliceLast_sublist MAX_CANDLES (mapModelsToCandles rows))
      (sortByOpenTime_sorted (rows.filterMap mapModelToCandle))
  · show (jsSliceLast MAX_CANDLES (mapModelsToCandles rows)).length = _
    rw [jsSliceLast, List.length_drop]
    have hlen : (mapModelsToCandles rows).length =
        (rows.filterMap mapModelToCandle).length :=
      (sortByOpenTime_perm _).length_eq
    rw [hlen]
    omega
  · refine ⟨(mapModelsToCandles rows).take
      ((mapModelsToCandles rows).length - MAX_CANDLES), ?_, ?_⟩
    · exact List.take_append_drop _ _
    · intro x hx y hy
      have hs : List.Pairwise keyLe (mapModelsToCandles rows) :=
        sortByOpenTime_sorted _
      rw [← List.take_append_drop ((mapModelsToCandles rows).length - MAX_CANDLES)
        (mapModelsToCandles rows), List.pairwise_append] at hs
      exact hs.2.2 x hx y hy

/-- Witness for C6 at a concrete two-row snapshot (rows arriving newest-first)
and a non-empty prior buffer. -/
theorem c6_reseed_replaces_sorted_truncated_witness :
    applyCandles [mkCandle 5 1 1 1 1]
        (fetchCandlesResult
          [{ interval := 1, candleTime := some 200, «open» := JsNum.num 1,
             high := JsNum.num 1, low := JsNum.num 1, close := JsNum.num 1,
             volume := none },
           { interval := 1, candleTime := some 100, «open» := JsNum.num 1,
             high := JsNum.num 1, low := JsNum.num 1, close := JsNum.num 1,
             volume := none }]) =
      fetchCandlesResult
          [{ interval := 1, candleTime := some 200, «open» := JsNum.num 1,
             high := JsNum.num 1, low := JsNum.num 1, close := JsNum.num 1,
             volume := none },
           { interval := 1, candleTime := some 100, «open» := JsNum.num 1,
             high := JsNum.num 1, low := JsNum.num 1, close := JsNum.num 1,
             volume := none }] ∧
    applyCandles [mkCandle 5 1 1 1 1]
        (fetchCandlesResult
          [{ interval := 1, candleTime := some 200, «open» := JsNum.num 1,
             high := JsNum.num 1, low := JsNum.num 1, close := JsNum.num 1,
             volume := none },
           { interval := 1, candleTime := some 100, «open» := JsNum.num 1,
             high := JsNum.num 1, low := JsNum.num 1, close := JsNum.num 1,
             volume := none }]) =
      applyCandles []
        (fetchCandlesResult
          [{ interval := 1, candleTime := some 200, «open» := JsNum.num 1,
             high := JsNum.num 1, low := JsNum.num 1, close := JsNum.num 1,
             volume := none },
           { interval := 1, candleTime := some 100, «open» := JsNum.num 1,
             high := JsNum.num 1, low := JsNum.num 1, close := JsNum.num 1,
             volume := none }]) ∧
    fetchCandlesResult [] = [] ∧
    List.Sorted keyLe
      (fetchCandlesResult
        [{ interval := 1, candleTime := some 200, «open» := JsNum.num 1,
           high := JsNum.num 1, low := JsNum.num 1, close := JsNum.num 1,
           volume := none },
         { interval := 1, candleTime := some 100, «open» := JsNum.num 1,
           high := JsNum.num 1, low := JsNum.num 1, close := JsNum.num 1,
           volume := none }]) ∧
    (fetchCandlesResult
        [{ interval := 1, candleTime := some 200, «open» := JsNum.num 1,
           high := JsNum.num 1, low := JsNum.num 1, close := JsNum.num 1,
           volume := none },
         { interval := 1, candleTime := some 100, «open» := JsNum.num 1,
           high := JsNum.num 1, low := JsNum.num 1, close := JsNum.num 1,
           volume := none }]).length =
      min
        ([{ interval := 1, candleTime := some 200, «open» := JsNum.num 1,
            high := JsNum.num 1, low := JsNum.num 1, close := JsNum.num 1,
            volume := none },
          { interval := 1, candleTime := some 100, «open» := JsNum.num 1,
            high := JsNum.num 1, low := JsNum.num 1, close := JsNum.num 1,
            volume := none }].filterMap mapModelToCandle).length MAX_CANDLES ∧
    ∃ dropped,
      dropped ++
          fetchCandlesResult
            [{ interval := 1, candleTime := some 200, «open» := JsNum.num 1,
               high := JsNum.num 1, low := JsNum.num 1, close := JsNum.num 1,
               volume := none },
             { interval := 1, candleTime := some 100, «open» := JsNum.num 1,
               high := JsNum.num 1, low := JsNum.num 1, close := JsNum.num 1,
               volume := none }] =
        mapModelsToCandles
          [{ interval := 1, candleTime := some 200, «open» := JsNum.num 1,
             high := JsNum.num 1, low := JsNum.num 1, close := JsNum.num 1,
             volume := none },
           { interval := 1, candleTime := some 100, «open» := JsNum.num 1,
             high := JsNum.num 1, low := JsNum.num 1, close := JsNum.num 1,
             volume := none }] ∧
      ∀ x ∈ dropped,
        ∀ y ∈
          fetchCandlesResult
            [{ interval := 1, candleTime := some 200, «open» := JsNum.num 1,
               high := JsNum.num 1, low := JsNum.num 1, close := JsNum.num 1,
               volume := none },
             { interval := 1, candleTime := some 100, «open» := JsNum.num 1,
               high := JsNum.num 1, low := JsNum.num 1, close := JsNum.num 1,
               volume := none }],
          x.openTime ≤ y.openTime := by
  have h := c6_reseed_replaces_sorted_truncated
    [{ interval := 1, candleTime := some 200, «open» := JsNum.num 1,
       high := JsNum.num 1, low := JsNum.num 1, close := JsNum.num 1,
       volume := none },
     { interval := 1, candleTime := some 100, «open» := JsNum.num 1,
       high := JsNum.num 1, low := JsNum.num 1, close := JsNum.num 1,
       volume := none }] [mkCandle 5 1 1 1 1] []
  exact h


/-- C7 (amended): a candle payload is discarded exactly when one of
`candleTime` (openTime), `open`, `high`, `low`, `close` parses to NaN — a value
parsing to ±Infinity is not finite yet is stored; a `volume` that parses to NaN
(or a null volume, for the GraphQL row mapper) degrades to an absent volume on
an otherwise-stored candle, and a discarded row leaves the snapshot buffer
unchanged. -/
theorem c7_drop_on_nan_fields (m : RawKline) (b : BinanceRestRaw)
    (rows : List RawKline) :
    (mapModelToCandle m = none ↔
      (m.candleTime = none ∨ m.«open».isNaN = true ∨ m.high.isNaN = true ∨
        m.low.isNaN = true ∨ m.close.isNaN = true)) ∧
    (mapBinanceRestCandle b = none ↔
      (b.«open».isNaN = true ∨ b.high.isNaN = true ∨ b.low.isNaN = true ∨
        b.close.isNaN = true)) ∧
    (m.close.isNaN = true → mapModelToCandle m = none) ∧
    (∀ c, mapModelToCandle m = some c → m.volume = none → c.volume = none) ∧
    (∀ c, mapBinanceRestCandle b = some c → b.volume.isNaN = true →
      c.volume = none) ∧
    (mapModelToCandle m = none →
      mapModelsToCandles (rows ++ [m]) = mapModelsToCandles rows) := by
  have h1 : mapModelToCandle m = none ↔
      (m.candleTime = none ∨ m.«open».isNaN = true ∨ m.high.isNaN = true ∨
        m.low.isNaN = true ∨ m.close.isNaN = true) := by
    cases hct : m.candleTime with
    | none => simp [mapModelToCandle, hct]
    | some t =>
      simp only [mapModelToCandle, hct]
      by_cases hnan :
          (m.«open».isNaN || m.high.isNaN || m.low.isNaN || m.close.isNaN) = true
      · rw [if_pos hnan]
        simp only [Bool.or_eq_true] at hnan
        simp
        tauto
      · rw [if_neg hnan]
        simp only [Bool.or_eq_true, not_or, Bool.not_eq_true] at hnan
        obtain ⟨⟨⟨ho1, hh1⟩, hl1⟩, hc1⟩ := hnan
        simp [ho1, hh1, hl1, hc1]
  have h2 : mapBinanceRestCandle b = none ↔
      (b.«open».isNaN = true ∨ b.high.isNaN = true ∨ b.low.isNaN = true ∨
        b.close.isNaN = true) := by
    by_cases hnan :
        (b.«open».isNaN || b.high.isNaN || b.low.isNaN || b.close.isNaN) = true
    · rw [mapBinanceRestCandle, if_pos hnan]
      simp only [Bool.or_eq_true] at hnan
      simp
      tauto
    · rw [mapBinanceRestCandle, if_neg hnan]
      simp only [Bool.or_eq_true, not_or, Bool.not_eq_true] at hnan
      obtain ⟨⟨⟨ho1, hh1⟩, hl1⟩, hc1⟩ := hnan
      simp [ho1, hh1, hl1, hc1]
  refine ⟨h1, h2, ?_, ?_, ?_, ?_⟩
  · intro hc
    exact h1.mpr (Or.inr (Or.inr (Or.inr (Or.inr hc))))
  · intro c hc hv
    cases hct : m.candleTime with
    | none => simp [mapModelToCandle, hct] at hc
    | some t =>
      simp only [mapModelToCandle, hct, hv] at hc
      by_cases hnan :
          (m.«open».isNaN || m.high.isNaN || m.low.isNaN || m.close.isNaN) = true
      · rw [if_pos hnan] at hc
        exact Option.noConfusion hc
      · rw [if_neg hnan] at hc
        obtain rfl := Option.some.inj hc
        rfl
  · intro c hc hvnan
    by_cases hnan :
        (b.«open».isNaN || b.high.isNaN || b.low.isNaN || b.close.isNaN) = true
    · rw [mapBinanceRestCandle, if_pos hnan] at hc
      exact Option.noConfusion hc
    · rw [mapBinanceRestCandle, if_neg hnan] at hc
      obtain rfl := Option.some.inj hc
      simp [hvnan]
  · intro hdrop
    rw [mapModelsToCandles, mapModelsToCandles, List.filterMap_append]
    simp [hdrop]

/-- Witness for C7 (amended) at a GraphQL row whose `close` parses to NaN and
a Binance REST payload whose volume string does not parse. -/
theorem c7_drop_on_nan_fields_witness :
    ((mapModelToCandle rowNanClose = none ↔
      (rowNanClose.candleTime = none ∨ rowNanClose.«open».isNaN = true ∨
        rowNanClose.high.isNaN = true ∨ rowNanClose.low.isNaN = true ∨
        rowNanClose.close.isNaN = true)) ∧
    (mapBinanceRestCandle binanceRowNanVolume = none ↔
      (binanceRowNanVolume.«open».isNaN = true ∨
        binanceRowNanVolume.high.isNaN = true ∨
        binanceRowNanVolume.low.isNaN = true ∨
        binanceRowNanVolume.close.isNaN = true)) ∧
    (rowNanClose.close.isNaN = true → mapModelToCandle rowNanClose = none) ∧
    (∀ c, mapModelToCandle rowNanClose = some c → rowNanClose.volume = none →
      c.volume = none) ∧
    (∀ c, mapBinanceRestCandle binanceRowNanVolume = some c →
      binanceRowNanVolume.volume.isNaN = true → c.volume = none) ∧
    (mapModelToCandle rowNanClose = none →
      mapModelsToCandles ([] ++ [rowNanClose]) = mapModelsToCandles [])) :=
  c7_drop_on_nan_fields rowNanClose binanceRowNanVolume []

/-- C7 counterexample: a row whose `close` parses to `Infinity` — a value that
fails to parse to a finite number — is nevertheless stored by
`mapModelToCandle` (the code only filters NaN), contradicting the claim that
any of the five fields failing to parse to a finite number discards the
payload. -/
theorem c7_counterexample_infinite_close_stored :
    (mapModelToCandle rowInfClose).isSome = true ∧
    rowInfClose.close.isFinite = false := by
  exact ⟨rfl, rfl⟩

/-- C8: a subscription message carrying a payload whose reported `interval`
differs from the currently selected interval is silently discarded before
reaching the buffer: the buffer is returned unchanged and no error is raised. -/
theorem c8_interval_mismatch_discarded (selectedInterval : Int)
    (result : SubscriptionResult) (payload : RawKline) (prev : List Candle)
    (herr : result.hasErrors = false) (hp : result.payload = some payload)
    (hint : payload.interval ≠ selectedInterval) :
    consumeSubscriptionResult selectedInterval result prev = (prev, false) := by
  simp [consumeSubscriptionResult, herr, hp, hint]

/-- Witness for C8: selected interval 1, payload reporting interval 5, on a
nonempty buffer. -/
theorem c8_interval_mismatch_discarded_witness :
    consumeSubscriptionResult 1
        { hasErrors := false, payload := some payloadInterval5 }
        [mkCandle 100 1 1 1 1] =
      ([mkCandle 100 1 1 1 1], false) :=
  c8_interval_mismatch_discarded 1
    { hasErrors := false, payload := some payloadInterval5 }
    payloadInterval5 [mkCandle 100 1 1 1 1] rfl rfl (by decide)

/-- C10: the two internal-source mappers disagree on a null volume — the
subscription mapper stores the candle with volume 0 while the snapshot row
mapper stores it with volume absent, for any row whose other fields parse. -/
theorem c10_null_volume_mappers_disagree (k : RawKline) (t : Int)
    (hct : k.candleTime = some t) (hv : k.volume = none)
    (ho : k.«open».isNaN = false) (hh : k.high.isNaN = false)
    (hl : k.low.isNaN = false) (hc : k.close.isNaN = false) :
    (∃ c, mapSubscriptionKlineToCandle k = some c ∧
      c.volume = some (JsNum.num 0)) ∧
    (∃ c, mapModelToCandle k = some c ∧ c.volume = none) := by
  have h1 : mapSubscriptionKlineToCandle k = some
      { openTime := t, «open» := k.«open», high := k.high, low := k.low,
        close := k.close, volume := some (JsNum.num 0) } := by
    simp only [mapSubscriptionKlineToCandle, hct, hv]
    rw [if_neg (by simp [ho, hh, hl, hc])]
    rfl
  have h2 : mapModelToCandle k = some
      { openTime := t, «open» := k.«open», high := k.high, low := k.low,
        close := k.close, volume := none } := by
    simp only [mapModelToCandle, hct, hv]
    rw [if_neg (by simp [ho, hh, hl, hc])]
    rfl
  exact ⟨⟨_, h1, rfl⟩, ⟨_, h2, rfl⟩⟩

/-- Witness for C10 at a concrete null-volume row. -/
theorem c10_null_volume_mappers_disagree_witness :
    (∃ c, mapSubscriptionKlineToCandle rowNullVolume = some c ∧
      c.volume = some (JsNum.num 0)) ∧
    (∃ c, mapModelToCandle rowNullVolume = some c ∧ c.volume = none) :=
  c10_null_volume_mappers_disagree rowNullVolume 100 rfl rfl rfl rfl rfl rfl

theorem getLastD_options : ([1, 3, 5, 15, 30, 60, 120, 240] : List ℚ).getLastD 0 = 240 :=
  rfl

/-- C9: for a positive visible range in minutes, the selector returns the
first entry of the ascending ladder whose bar count `range / granularity` does
not exceed `TARGET_BAR_COUNT`, and the coarsest (last) entry when no ladder
entry satisfies the bound; a 60-minute range selects interval 1. -/
theorem c9_pickInterval_first_satisfying (r : ℚ) (hr : 0 < r) :
    pickIntervalForRange r ∈ INTERVAL_OPTIONS ∧
    (∀ o ∈ INTERVAL_OPTIONS, o < pickIntervalForRange r →
      ¬(r / o ≤ TARGET_BAR_COUNT)) ∧
    (r / pickIntervalForRange r ≤ TARGET_BAR_COUNT ∨
      (pickIntervalForRange r = 240 ∧
        ∀ o ∈ INTERVAL_OPTIONS, ¬(r / o ≤ TARGET_BAR_COUNT))) ∧
    pickIntervalForRange 60 = 1 := by
  have h60 : pickIntervalForRange 60 = 1 := by
    simp [pickIntervalForRange, pickIntervalLoop, INTERVAL_OPTIONS,
      TARGET_BAR_COUNT]
    norm_num
  have hmain : pickIntervalForRange r ∈ INTERVAL_OPTIONS ∧
      (∀ o ∈ INTERVAL_OPTIONS, o < pickIntervalForRange r →
        ¬(r / o ≤ TARGET_BAR_COUNT)) ∧
      (r / pickIntervalForRange r ≤ TARGET_BAR_COUNT ∨
        (pickIntervalForRange r = 240 ∧
          ∀ o ∈ INTERVAL_OPTIONS, ¬(r / o ≤ TARGET_BAR_COUNT))) := by
    simp only [pickIntervalForRange, pickIntervalLoop, INTERVAL_OPTIONS,
      TARGET_BAR_COUNT, getLastD_options]
    split_ifs with hq1 hq2 hq3 hq4 hq5 hq6 hq7 hq8 <;>
      refine ⟨by norm_num, ?_, ?_⟩ <;>
      first
        | (intro o ho hlt
           fin_cases ho <;> first | assumption | norm_num at hlt)
        | (left; assumption)
        | (refine Or.inr ⟨rfl, ?_⟩
           intro o ho
           fin_cases ho <;> assumption)
  exact ⟨hmain.1, hmain.2.1, hmain.2.2, h60⟩

/-- Witness for C9 at the spec scenario: visible range of 60 minutes. -/
theorem c9_pickInterval_first_satisfying_witness :
    (0 : ℚ) < 60 ∧
    (pickIntervalForRange 60 ∈ INTERVAL_OPTIONS ∧
      (∀ o ∈ INTERVAL_OPTIONS, o < pickIntervalForRange 60 →
        ¬((60 : ℚ) / o ≤ TARGET_BAR_COUNT)) ∧
      ((60 : ℚ) / pickIntervalForRange 60 ≤ TARGET_BAR_COUNT ∨
        (pickIntervalForRange 60 = 240 ∧
          ∀ o ∈ INTERVAL_OPTIONS, ¬((60 : ℚ) / o ≤ TARGET_BAR_COUNT))) ∧
      pickIntervalForRange 60 = 1) :=
  ⟨by norm_num, c9_pickInterval_first_satisfying 60 (by norm_num)⟩
